import Mathlib

/-!
Verification of the off-chain LLM oracle node (`llm-service-evm`).

Shallow embedding of the node's JavaScript source:
* the round-robin scheduler (`calculate_wait_time`, main file),
* the JS `Number(bigint)` conversion used on 256-bit request ids,
* the content-addressed store (`storage.js`),
* the prompt/template substitution (`buildPrompt`, `resolveContentFromHash`),
* the provider dispatch post-processing (`llm-requests.js`),
* the request pipeline (`on_llm_request`) as a trace of effects,
* the log ingester (`contract-events.js`: `get_past_events`,
  `handle_subscription_event`) with an explicit cursor/file state.

External library calls (node `crypto` SHA-256, HTTP transport, JSON codec,
the filesystem, ethers RPC) are modelled as parameters or oracle inputs;
everything the repository itself computes is embedded directly.
-/

namespace LLMService

/-! ### JS primitives -/

/-- The whitespace characters matched by JS `\s` and removed by
`String.prototype.trim` (ASCII part; the model omits the Unicode
space classes, which never occur in the repository's data). -/
def isJsSpace (c : Char) : Bool :=
  c == ' ' || c == '\t' || c == '\n' || c == '\r' || c == '\x0b' || c == '\x0c'

/-- JS `String.prototype.trim` on a character list. -/
def jsTrimL (l : List Char) : List Char :=
  ((l.dropWhile isJsSpace).reverse.dropWhile isJsSpace).reverse

/-- JS `String.prototype.trim`: drop leading and trailing whitespace. -/
def jsTrim (s : String) : String :=
  ⟨jsTrimL s.data⟩

/-- JS `String.prototype.toLowerCase` (ASCII; hex digits and addresses only). -/
def jsToLower (s : String) : String :=
  ⟨s.data.map Char.toLower⟩

/-- Bit length of a natural number; the `fuel` argument only bounds the
recursion depth and any `fuel ≥ n` gives the same value. -/
def bitLenAux : Nat → Nat → Nat
  | _, 0 => 0
  | 0, _ => 0
  | fuel + 1, n => 1 + bitLenAux fuel (n / 2)

/-- Bit length: `bitLen 0 = 0`, and `bitLen n = Nat.log2 n + 1` for
positive `n`. -/
def bitLen (n : Nat) : Nat := bitLenAux n n

/-- JS `Number(bigint)` for a non-negative big integer: exact below `2^53`,
otherwise round to the nearest double (53-bit significand), ties to even.
(256-bit values are far below the double overflow threshold.) -/
def jsToNumber (r : Nat) : Nat :=
  if r < 2 ^ 53 then r
  else
    let k := bitLen r - 53
    let q := r / 2 ^ k
    let rem := r % 2 ^ k
    let half := 2 ^ (k - 1)
    if rem < half then q * 2 ^ k
    else if half < rem then (q + 1) * 2 ^ k
    else if q % 2 = 0 then q * 2 ^ k else (q + 1) * 2 ^ k

/-- JS `v || d` for an optional numeric event argument
(`undefined` and `0` are falsy). Source: `event.args[1] || 1`. -/
def jsOrDefault : Option Nat → Nat → Nat
  | none, d => d
  | some 0, d => d
  | some n, _ => n

/-! ### Scheduler (`calculate_wait_time`, main file lines 314-333) -/

/-- Base wait time in milliseconds (`BASE_WAIT_TIME = 60000`). -/
def BASE_WAIT_TIME : Nat := 60000

/-- Source `calculate_wait_time(request_id, redundancy)` with the globals
`myNodeIndex` (non-negative here: the pipeline returns before calling this
when the node is unauthorized) and `numNodes` passed explicitly.
JS computes `(myNodeIndex - startNode + numNodes) % numNodes` on integers;
since `startNode < numNodes` this equals the Nat expression
`(myIdx + (numNodes - startNode)) % numNodes` used here.
The conversion `Number(request_id)` on the 256-bit id is `jsToNumber`. -/
def calculate_wait_time (request_id redundancy myIdx numNodes : Nat) : Nat :=
  if numNodes = 0 then 0
  else
    let reqId := jsToNumber request_id
    let startNode := reqId % numNodes
    let myPosition := (myIdx + (numNodes - startNode)) % numNodes
    if myPosition < redundancy then 0
    else (myPosition - redundancy + 1) * BASE_WAIT_TIME

/-! ### Content-addressed store (`storage.js`)

The filesystem directory is modelled as an association list from file name
(the hex hash) to file content. `crypto.createHash('sha256')...digest('hex')`
is an external library call and is modelled as an explicit `hashFn`
parameter; the real SHA-256 produces a lowercase 64-hex string. -/

/-- A hex digit, matching the JS regex class `[a-f0-9]` with the `i` flag. -/
def isHexDigitCI (c : Char) : Bool :=
  ('0' ≤ c && c ≤ '9') || ('a' ≤ c && c ≤ 'f') || ('A' ≤ c && c ≤ 'F')

/-- The hash-shape test `/^[a-f0-9]{64}$/i` used by `getContent`,
`hasContent` and `resolveContentFromHash`. -/
def validHash (h : String) : Bool :=
  h.data.length == 64 && h.data.all isHexDigitCI

/-- The storage directory: file name (hash) to file content.  File contents
are byte strings; the repository only ever stores UTF-8 text, so they are
modelled as `String` (the `Buffer`/UTF-8 decoding is the identity here). -/
abbrev Store := List (String × String)

/-- Source `getContent(hash)`: validate the hash shape, lowercase it, read the
file; `null` on invalid hash or missing file. -/
def getContent (store : Store) (hash : String) : Option String :=
  if validHash hash then List.lookup (jsToLower hash) store else none

/-- Source `storeContent(content)`: hash the content, write the file only if a
file of that name does not already exist, return the hash.
Result: (returned hash, directory after the call). -/
def storeContent (hashFn : String → String) (store : Store) (content : String) :
    String × Store :=
  let hash := hashFn content
  match List.lookup hash store with
  | some _ => (hash, store)
  | none => (hash, (hash, content) :: store)

/-! ### Provider dispatch (`llm-requests.js`)

Each adapter posts to its HTTP endpoint and extracts a text field from the
JSON response; the HTTP transport and response parsing are external, so an
adapter is modelled by what it does to the extracted text `raw` before
returning it.  Every adapter returns `<text>.trim()` — except the
anthropic one, which returns `response.data.content[0].text` untrimmed. -/

def process_openai_request (raw : String) : String := jsTrim raw

def process_anthropic_request (raw : String) : String := raw

def process_gemini_request (raw : String) : String := jsTrim raw

def process_grok_request (raw : String) : String := jsTrim raw

def process_groq_request (raw : String) : String := jsTrim raw

def process_deepseek_request (raw : String) : String := jsTrim raw

def process_qwen_request (raw : String) : String := jsTrim raw

def process_kimi_request (raw : String) : String := jsTrim raw

def process_perplexity_request (raw : String) : String := jsTrim raw

def process_zai_request (raw : String) : String := jsTrim raw

/-- Source `process_llm_request(platform, model, prompt)`: dispatch on
`platform.toLowerCase()`; `none` models the thrown
`Unsupported platform` error. -/
def process_llm_request (platform : String) (raw : String) : Option String :=
  match jsToLower platform with
  | "openai" => some (process_openai_request raw)
  | "anthropic" => some (process_anthropic_request raw)
  | "gemini" => some (process_gemini_request raw)
  | "grok" => some (process_grok_request raw)
  | "groq" => some (process_groq_request raw)
  | "deepseek" => some (process_deepseek_request raw)
  | "qwen" => some (process_qwen_request raw)
  | "kimi" => some (process_kimi_request raw)
  | "perplexity" => some (process_perplexity_request raw)
  | "zai" => some (process_zai_request raw)
  | "zhipu" => some (process_zai_request raw)
  | _ => none

/-! ### Prompt / config resolution (main file lines 342-429) -/

/-- Source `resolveContentFromHash(hash)` (lines 342-354): the guard
`!hash || typeof hash !== 'string'` returns `null` for falsy values — in
this all-string model, for the empty string (non-string JSON values,
which the same guard also rejects, are outside the embedding).  Then: if
the value has the 64-hex hash shape, look it up in the store (`none`
models the JS `null` when the file is missing); otherwise return the
value itself. -/
def resolveContentFromHash (store : Store) (hash : String) : Option String :=
  if hash = "" then none
  else if validHash hash then getContent store hash
  else some hash

/-- A character the JS regex grammar treats as a literal and that needs
no escaping: letters, digits and underscore.  Keys made of these are the
ones for which `new RegExp('\\{\\{\\s*' + key + '\\s*\\}\\}')` denotes
the literal placeholder pattern. -/
def isRegexLiteralChar (c : Char) : Bool :=
  c.isAlphanum || c == '_'

/-- Try to match `\s* key \s* \x7d\x7d` at the head of `l` (the part of a
`\x7b\x7b...` placeholder after the two opening braces), returning the rest
of the text after the placeholder.  The source interpolates the key into
the regex source; this model covers keys made of regex-literal characters
(letters, digits, underscore — the keys the repository's JSON inputs
use), for which the constructed regex denotes exactly this placeholder
pattern and consuming maximal whitespace runs coincides with the
backtracking semantics of `\{\{\s*key\s*\}\}`. -/
def matchKeyWs (key : List Char) (l : List Char) : Option (List Char) :=
  let l1 := l.dropWhile isJsSpace
  if key.isPrefixOf l1 then
    match (l1.drop key.length).dropWhile isJsSpace with
    | '\x7d' :: '\x7d' :: rest => some rest
    | _ => none
  else none

/-- The backtick character, written by code point to keep it out of the
source text. -/
def backtickChar : Char := Char.ofNat 96

/-- The single-quote character, written by code point. -/
def squoteChar : Char := Char.ofNat 39

/-- JS `GetSubstitution` for a replacement string (the second argument of
`String.prototype.replace`): `$$` is a literal dollar, `$&` the matched
substring, a dollar followed by the backtick character the part of the
original string before the match, `$` followed by the single quote the
part after the match; any other `$`-sequence is literal because the
constructed placeholder regex has no capture groups. -/
def expandRepl (before matched after : List Char) : List Char → List Char
  | [] => []
  | c :: rest =>
    if c = '$' then
      match rest with
      | [] => ['$']
      | c2 :: rest2 =>
        if c2 = '$' then '$' :: expandRepl before matched after rest2
        else if c2 = '&' then matched ++ expandRepl before matched after rest2
        else if c2 = backtickChar then before ++ expandRepl before matched after rest2
        else if c2 = squoteChar then after ++ expandRepl before matched after rest2
        else '$' :: c2 :: expandRepl before matched after rest2
    else c :: expandRepl before matched after rest

/-- One left-to-right, non-overlapping pass of
`prompt.replace(new RegExp('\\{\\{\\s*key\\s*\\}\\}', 'g'), repl)`.
`whole` is the original string and `pos` the index of the current suffix
in it — `String.replace` hands both to the `$`-pattern expansion of the
replacement.  `fuel` only bounds the recursion; it is always called with
`fuel = l.length`, which suffices because every step consumes at least
one character of `l`. -/
def substAllAux (key repl whole : List Char) : Nat → Nat → List Char → List Char
  | _, _, [] => []
  | 0, _, l => l
  | fuel + 1, pos, c :: rest =>
    if c = '\x7b' then
      match rest with
      | c2 :: rest2 =>
        if c2 = '\x7b' then
          match matchKeyWs key rest2 with
          | some rem =>
            expandRepl (whole.take pos)
                ((c :: rest).take ((c :: rest).length - rem.length)) rem repl ++
              substAllAux key repl whole fuel
                (pos + ((c :: rest).length - rem.length)) rem
          | none => c :: substAllAux key repl whole fuel (pos + 1) rest
        else c :: substAllAux key repl whole fuel (pos + 1) rest
      | [] => [c]
    else c :: substAllAux key repl whole fuel (pos + 1) rest

/-- Replace every occurrence of the placeholder `\x7b\x7b\s*key\s*\x7d\x7d`
in `template` by `repl` (JS global regex replace, including the
`$`-pattern expansion of the replacement string). -/
def jsReplaceAll (template key repl : String) : String :=
  ⟨substAllAux key.data repl.data template.data template.data.length 0 template.data⟩

/-- Parsed config (`parseConfig` result): optional platform/model from a
`model: platform/model` first line, and the prompt template. -/
structure Config where
  platform : Option String
  model : Option String
  prompt : String
deriving DecidableEq

/-- JS `content.split('\n')` on a character list. -/
def splitNl : List Char → List (List Char)
  | [] => [[]]
  | c :: rest =>
    let r := splitNl rest
    if c = '\n' then [] :: r
    else (c :: r.headD []) :: r.tail

/-- JS `lines.join('\n')`. -/
def joinNl : List (List Char) → List Char
  | [] => []
  | [l] => l
  | l :: rest => l ++ '\n' :: joinNl rest

/-- Source `parseConfig(content)` (main file lines 359-399): an empty string is
falsy and yields `null`; a first line starting with `"model: "` must parse
as `platform/model` with both parts non-empty, the remaining lines joined
by newline form the prompt; otherwise the whole content is the prompt. -/
def parseConfig (content : String) : Option Config :=
  if content = "" then none
  else
    let lines := splitNl content.data
    let firstLine := jsTrimL (lines.headD [])
    if "model: ".data.isPrefixOf firstLine then
      let modelSpec := jsTrimL (firstLine.drop 7)
      match modelSpec.findIdx? (· = '/') with
      | none => none
      | some slashIndex =>
        let platform := jsTrimL (modelSpec.take slashIndex)
        let model := jsTrimL (modelSpec.drop (slashIndex + 1))
        if platform = [] ∨ model = [] then none
        else some ⟨some ⟨platform⟩, some ⟨model⟩, ⟨joinNl (lines.drop 1)⟩⟩
    else some ⟨none, none, content⟩

/-- The loop body of `buildPrompt`: resolve one `(key, value)` entry of the
parsed input object and substitute its placeholder; when
`resolveContentFromHash` yields `null` (hash-shaped value missing from the
store) the prompt is left untouched. -/
def substituteEntry (store : Store) (prompt : String) (kv : String × String) : String :=
  match resolveContentFromHash store kv.2 with
  | none => prompt
  | some v => jsReplaceAll prompt kv.1 v

/-- Source `buildPrompt(config, inputs)` after the external `JSON.parse`: fold the
substitution over the entries of the parsed input object (a JSON parse
failure yields the empty entry list). -/
def buildPrompt (config : Config) (inputEntries : List (String × String))
    (store : Store) : String :=
  inputEntries.foldl (substituteEntry store) config.prompt

/-! ### Result extraction (`extractResultContent`, main file lines 432-462) -/

/-- JS `String.prototype.indexOf(pat)` on a character list, starting index `i`. -/
def idxOfFrom (pat : List Char) : List Char → Nat → Option Nat
  | [], i => if pat.isEmpty then some i else none
  | c :: rest, i =>
    if pat.isPrefixOf (c :: rest) then some i else idxOfFrom pat rest (i + 1)

/-- Source `extractResultContent(text)`: everything after the first `<result>`,
truncated at a later `</result>` if present, trimmed; the original text
when no `<result>` tag exists. -/
def extractResultContent (text : String) : String :=
  let l := text.data
  match idxOfFrom "<result>".data l 0 with
  | none => text
  | some openTagStart =>
    let contentStart := openTagStart + 8
    match idxOfFrom "</result>".data (l.drop contentStart) 0 with
    | none => jsTrim ⟨l.drop contentStart⟩
    | some j => jsTrim ⟨(l.take (j + contentStart)).drop contentStart⟩

/-! ### Request pipeline (`on_llm_request`, main file lines 490-620)

The pipeline is embedded as a function from the event and an oracle
environment (the answers the chain, the store and the provider would give)
to the list of effects it performs, in order. -/

/-- The decoded `getRequestInfo` tuple, after `bytes32ToString` /
`bytes32ToHex` decoding and the external `JSON.parse` of the input. -/
structure RequestInfo where
  platform : String
  model : String
  promptHash : String
  inputEntries : List (String × String)
  redundancy : Nat
  returnContentWithinResultTag : Bool
  storeResultOffchain : Bool
deriving DecidableEq

/-- A decoded `NewRequest(requestId, redundancy)` event as the handler sees
it: `args[0]` is a 256-bit big integer, `args[1]` may be absent. -/
structure JsEvent where
  requestId : Nat
  redundancyArg : Option Nat
deriving DecidableEq

/-- Oracle environment of one pipeline task. `requestInfo = none` models
both a missing tuple and a zero `caller` address. -/
structure PipeEnv where
  myNodeIndex : Int
  numNodes : Nat
  hashFn : String → String
  store : Store
  checkAfterSleep : String
  requestInfo : Option RequestInfo
  providerResult : Except Unit String
  checkAfterWork : String

/-- Observable effects of a pipeline task. -/
inductive Action where
  | sleep (ms : Nat)
  | checkSubmission
  | getRequestInfo
  | invokeProvider (platform model prompt : String)
  | storeResult (content : String)
  | sendResult (result : String)
deriving DecidableEq

def Action.isInvoke : Action → Bool
  | invokeProvider _ _ _ => true
  | _ => false

def Action.isSend : Action → Bool
  | sendResult _ => true
  | _ => false

/-- The wait the pipeline computes for an event:
`calculate_wait_time(request_id, event.args[1] || 1)` (lines 499/503). -/
def requestWaitTime (env : PipeEnv) (ev : JsEvent) : Nat :=
  calculate_wait_time ev.requestId (jsOrDefault ev.redundancyArg 1)
    env.myNodeIndex.toNat env.numNodes

/-- The `.then` continuation on the provider result (lines 589-613):
extract the `<result>` tag if requested, store off-chain if requested,
re-check the submission and only then send. -/
def on_llm_result (env : PipeEnv) (info : RequestInfo) (raw : String) : List Action :=
  let r1 := if info.returnContentWithinResultTag then extractResultContent raw else raw
  let stActs : List Action := if info.storeResultOffchain then [Action.storeResult r1] else []
  let r2 := if info.storeResultOffchain then (storeContent env.hashFn env.store r1).1 else r1
  stActs ++ [Action.checkSubmission] ++
    (if env.checkAfterWork = "OK" then [Action.sendResult r2] else [])

/-- Source `on_llm_request(event)` as an effect trace.  Control flow of the
source: authorization gate, wait, pre-work re-check (only when the wait was
positive), `getRequestInfo`, config lookup and parse, platform/model
resolution with request fallback, provider invocation, then the `.then`
continuation `on_llm_result`. -/
def on_llm_request (env : PipeEnv) (ev : JsEvent) : List Action :=
  if env.myNodeIndex = -1 then []
  else
    let waitTime := requestWaitTime env ev
    let preActs : List Action :=
      if 0 < waitTime then [Action.sleep waitTime, Action.checkSubmission] else []
    if 0 < waitTime ∧ env.checkAfterSleep ≠ "OK" then preActs
    else
      preActs ++ Action.getRequestInfo ::
        (match env.requestInfo with
        | none => []
        | some info =>
          match getContent env.store info.promptHash with
          | none => []
          | some configContent =>
            match parseConfig configContent with
            | none => []
            | some config =>
              let platform := config.platform.getD info.platform
              let model := config.model.getD info.model
              if platform = "" ∨ model = "" then []
              else
                let prompt := buildPrompt config info.inputEntries env.store
                Action.invokeProvider platform model prompt ::
                  (match env.providerResult with
                  | .error _ => []
                  | .ok raw => on_llm_result env info raw))

/-! ### Log ingester (`contract-events.js`)

The module state is `lastProcessedBlock` / `lastProcessedLogIndex` plus
the cursor file.  `lastProcessedLogIndex` is a JS value that takes `-1`
(initial / legacy read), an actual log index, `Infinity` (set after an
empty catch-up range and by the heartbeat), or `null`: `JSON.stringify`
(line 50) serializes `Infinity` as `null`, and `get_last_processed_event`
(line 31) keeps a parsed `null` as-is, since it is not `undefined`. -/

/-- The values `lastProcessedLogIndex` ranges over. -/
inductive LogIdx where
  | negOne
  | fin (i : Nat)
  | inf
  | null
deriving DecidableEq

/-- JS `i <= lastProcessedLogIndex` for an actual (non-negative) event
log index `i`.  A `null` bound coerces to `0` under the JS relational
comparison, so only `i = 0` is at or below it. -/
def leIdx (i : Nat) : LogIdx → Bool
  | .negOne => false
  | .fin j => Nat.ble i j
  | .inf => true
  | .null => Nat.ble i 0

/-- A raw log event as the ingester sees it (decoded payload irrelevant
to the cursor logic). -/
structure Ev where
  blockNumber : Nat
  logIndex : Nat
deriving DecidableEq

/-- One event delivery, recording the in-memory cursor and the persisted
file content at the moment `on_contract_event_callback` was invoked. -/
structure Entry where
  ev : Ev
  curBlock : Nat
  curIdx : LogIdx
  fileAtDelivery : Option (Nat × LogIdx)
deriving DecidableEq

/-- Ingester state: in-memory cursor, cursor-file content (`none` = file
absent), and the audit trail of deliveries to the pipeline.  `fileCursor`
records the pair passed to `write_last_processed_event`; the JSON
encoding applied by that write (`Infinity` becomes `null`,
part_001:50) surfaces on the read path, `get_last_processed_event`. -/
structure IngestState where
  lastProcessedBlock : Nat
  lastProcessedLogIndex : LogIdx
  fileCursor : Option (Nat × LogIdx)
  delivered : List Entry
deriving DecidableEq

/-- The duplicate guard (lines 103-104 and 144-145): skip events with
`blockNumber < lastProcessedBlock`, or equal block and
`logIndex <= lastProcessedLogIndex`. -/
def alreadyProcessed (st : IngestState) (e : Ev) : Prop :=
  e.blockNumber < st.lastProcessedBlock ∨
    (e.blockNumber = st.lastProcessedBlock ∧
      leIdx e.logIndex st.lastProcessedLogIndex = true)

instance (st : IngestState) (e : Ev) : Decidable (alreadyProcessed st e) := by
  unfold alreadyProcessed; infer_instance

/-- The comparator of the catch-up sort (lines 91-96):
`(blockNumber, logIndex)` ascending. -/
def evLe (a b : Ev) : Bool :=
  Nat.blt a.blockNumber b.blockNumber ||
    (a.blockNumber == b.blockNumber && Nat.ble a.logIndex b.logIndex)

/-- Stable insertion used by `sortEvents`. -/
def insertEv (e : Ev) : List Ev → List Ev
  | [] => [e]
  | x :: xs => if evLe x e then x :: insertEv e xs else e :: x :: xs

/-- The JS stable `Array.prototype.sort` under the `evLe` comparator,
modelled by stable insertion sort. -/
def sortEvents : List Ev → List Ev
  | [] => []
  | e :: rest => insertEv e (sortEvents rest)

/-- The per-event body of the catch-up loop (lines 99-113): filter by the
duplicate guard, deliver, then update the in-memory cursor.  The cursor
file is not touched here. -/
def processEvents (st : IngestState) : List Ev → IngestState
  | [] => st
  | e :: rest =>
    if alreadyProcessed st e then processEvents st rest
    else
      processEvents
        { lastProcessedBlock := e.blockNumber
          lastProcessedLogIndex := .fin e.logIndex
          fileCursor := st.fileCursor
          delivered := st.delivered ++
            [⟨e, st.lastProcessedBlock, st.lastProcessedLogIndex, st.fileCursor⟩] }
        rest

/-- The `while (start_block <= last_block)` loop of `get_past_events`
(lines 79-123).  `q from to` models `queryFilter('*', from, to)`; an
`error` is the caught query failure, after which the loop logs and
continues with the next range.  `fuel` only bounds the iteration count; it
is always called with `fuel = last_block + 1 - start_block`, which
suffices because `start_block` advances by at least one block per range. -/
def catchUpLoop (q : Nat → Nat → Except Unit (List Ev)) (last_block : Nat) :
    Nat → Nat → IngestState → IngestState
  | 0, _, st => st
  | fuel + 1, start_block, st =>
    if start_block ≤ last_block then
      catchUpLoop q last_block fuel (min (start_block + 9999) last_block + 1)
        (match q start_block (min (start_block + 9999) last_block) with
        | .ok evs => processEvents st (sortEvents evs)
        | .error _ => st)
    else st

/-- The starting block of catch-up (lines 60-66): the persisted cursor
block, or block 1 when nothing was ever processed. -/
def startBlockOf (st : IngestState) : Nat :=
  if st.lastProcessedBlock = 0 then 1 else st.lastProcessedBlock

/-- Source `get_past_events` (lines 57-133): start from the persisted cursor
(block 1 if none), skip catch-up entirely when already past the head, run
the range loop, then — once, after the loop — advance the in-memory cursor
to `(head, Infinity)` if no later event was seen and write the cursor
file.  `fileCursor` records the pair handed to
`write_last_processed_event`; the lossy `JSON.stringify` encoding of
`Infinity` as `null` takes effect on the read path,
`get_last_processed_event` below. -/
def get_past_events (q : Nat → Nat → Except Unit (List Ev)) (last_block : Nat)
    (st : IngestState) : IngestState :=
  if last_block < startBlockOf st then st
  else
    let st1 := catchUpLoop q last_block (last_block + 1 - startBlockOf st)
      (startBlockOf st) st
    let st2 :=
      if st1.lastProcessedBlock < last_block then
        { st1 with lastProcessedBlock := last_block, lastProcessedLogIndex := .inf }
      else st1
    { st2 with fileCursor := some (st2.lastProcessedBlock, st2.lastProcessedLogIndex) }

/-- Source `handle_subscription_event` (lines 136-155): the live-phase guard,
delivery, in-memory update and per-event file write. -/
def handle_subscription_event (st : IngestState) (e : Ev) : IngestState :=
  if alreadyProcessed st e then st
  else
    { lastProcessedBlock := e.blockNumber
      lastProcessedLogIndex := .fin e.logIndex
      fileCursor := some (e.blockNumber, .fin e.logIndex)
      delivered := st.delivered ++
        [⟨e, st.lastProcessedBlock, st.lastProcessedLogIndex, st.fileCursor⟩] }

/-- What a persisted `logIndex` reads back as: `JSON.stringify` writes
`Infinity` as `null` (line 50), and `JSON.parse` returns that `null`,
which `get_last_processed_event` keeps because it is not `undefined`
(line 31).  Finite indices and the legacy `-1` round-trip unchanged. -/
def jsonReadIdx : LogIdx → LogIdx
  | .inf => .null
  | x => x

/-- Source `get_last_processed_event` (lines 21-44): parse the cursor
file; a missing file yields `(0, -1)`, a stored pair yields the block and
the JSON round-tripped `logIndex`.  (The legacy decimal-only format also
yields `logIndex = -1` and is covered by the `negOne` case.) -/
def get_last_processed_event : Option (Nat × LogIdx) → Nat × LogIdx
  | none => (0, .negOne)
  | some (b, i) => (b, jsonReadIdx i)

/-- The ingester state at the start of a fresh process reading the given
cursor file (`initialize_event_handling`, lines 255-258): the in-memory
cursor is whatever `get_last_processed_event` parsed, nothing has been
delivered in this process yet. -/
def restartIngest (file : Option (Nat × LogIdx)) : IngestState :=
  ⟨(get_last_processed_event file).1, (get_last_processed_event file).2, file, []⟩

/-- An event strictly above a cursor in the lexicographic
`(block, logIndex)` order — the freshness every delivery must satisfy. -/
def freshFor (curBlock : Nat) (curIdx : LogIdx) (e : Ev) : Prop :=
  curBlock < e.blockNumber ∨
    (curBlock = e.blockNumber ∧ leIdx e.logIndex curIdx = false)

instance (b : Nat) (i : LogIdx) (e : Ev) : Decidable (freshFor b i e) := by
  unfold freshFor; infer_instance

/-- A delivery that was strictly above the in-memory cursor at its moment. -/
def entryFresh (d : Entry) : Prop := freshFor d.curBlock d.curIdx d.ev

instance (d : Entry) : Decidable (entryFresh d) := by
  unfold entryFresh; infer_instance

/-- A cursor covering an event: `(b, i) ≤ cursor` lexicographically,
i.e. the event would be skipped by the duplicate guard. -/
def cursorCovers (c : Nat × LogIdx) (e : Ev) : Prop :=
  e.blockNumber < c.1 ∨ (e.blockNumber = c.1 ∧ leIdx e.logIndex c.2 = true)

instance (c : Nat × LogIdx) (e : Ev) : Decidable (cursorCovers c e) := by
  unfold cursorCovers; infer_instance

/-! ### Theorems: scheduler (C3, C4, C10) -/

lemma pos_round (n s p : Nat) (hs : s < n) (hp : p < n) :
    ((p + s) % n + (n - s)) % n = p := by
  rw [Nat.mod_add_mod]
  have he : p + s + (n - s) = p + n := by omega
  rw [he, Nat.add_mod_right]
  exact Nat.mod_eq_of_lt hp

lemma pos_inv (n s m : Nat) (hs : s < n) (hm : m < n) :
    ((m + (n - s)) % n + s) % n = m := by
  rw [Nat.mod_add_mod]
  have he : m + (n - s) + s = m + n := by omega
  rw [he, Nat.add_mod_right]
  exact Nat.mod_eq_of_lt hm

lemma cwt_eq (r k m n : Nat) (hn : n ≠ 0) :
    calculate_wait_time r k m n =
      if (m + (n - jsToNumber r % n)) % n < k then 0
      else ((m + (n - jsToNumber r % n)) % n - k + 1) * BASE_WAIT_TIME := by
  simp [calculate_wait_time, hn]

lemma cwt_eq_zero_iff (r k m n : Nat) (hn : n ≠ 0) :
    calculate_wait_time r k m n = 0 ↔ (m + (n - jsToNumber r % n)) % n < k := by
  rw [cwt_eq r k m n hn]
  by_cases hlt : (m + (n - jsToNumber r % n)) % n < k
  · simp [hlt]
  · simp only [if_neg hlt, Nat.mul_eq_zero, BASE_WAIT_TIME]
    omega

/-- C3. Scheduler locality: for every request id `r`, redundancy `k` and
node count `n` with `1 ≤ k ≤ n`, the delay function of
`calculate_wait_time` over node indices `m ∈ [0, n)` assigns delay 0 to
exactly `k` indices, and the remaining `n − k` indices receive pairwise
distinct, strictly positive delays that are multiples of 60 s. -/
theorem C3_scheduler_locality (r k n : Nat) (hk : 1 ≤ k) (hkn : k ≤ n) :
    ((Finset.range n).filter (fun m => calculate_wait_time r k m n = 0)).card = k ∧
    (∀ m, m < n → calculate_wait_time r k m n ≠ 0 →
      0 < calculate_wait_time r k m n ∧ BASE_WAIT_TIME ∣ calculate_wait_time r k m n) ∧
    (∀ m₁, m₁ < n → ∀ m₂, m₂ < n → m₁ ≠ m₂ →
      calculate_wait_time r k m₁ n ≠ 0 → calculate_wait_time r k m₂ n ≠ 0 →
      calculate_wait_time r k m₁ n ≠ calculate_wait_time r k m₂ n) := by
  have hn : 0 < n := Nat.lt_of_lt_of_le hk hkn
  have hn' : n ≠ 0 := Nat.pos_iff_ne_zero.mp hn
  have hs : jsToNumber r % n < n := Nat.mod_lt _ hn
  refine ⟨?_, ?_, ?_⟩
  · have hcongr :
        (Finset.range n).filter (fun m => calculate_wait_time r k m n = 0) =
        (Finset.range n).filter (fun m => (m + (n - jsToNumber r % n)) % n < k) := by
      apply Finset.filter_congr
      intro m _
      exact cwt_eq_zero_iff r k m n hn'
    rw [hcongr]
    have hbij :
        ((Finset.range n).filter (fun m => (m + (n - jsToNumber r % n)) % n < k)).card =
          (Finset.range k).card := by
      apply Finset.card_bij' (fun m _ => (m + (n - jsToNumber r % n)) % n)
        (fun p _ => (p + jsToNumber r % n) % n)
      · intro m hm
        simp only [Finset.mem_filter, Finset.mem_range] at hm ⊢
        exact hm.2
      · intro p hp
        simp only [Finset.mem_range] at hp
        simp only [Finset.mem_filter, Finset.mem_range]
        refine ⟨Nat.mod_lt _ hn, ?_⟩
        rw [pos_round n (jsToNumber r % n) p hs (Nat.lt_of_lt_of_le hp hkn)]
        exact hp
      · intro m hm
        simp only [Finset.mem_filter, Finset.mem_range] at hm
        exact pos_inv n (jsToNumber r % n) m hs hm.1
      · intro p hp
        simp only [Finset.mem_range] at hp
        exact pos_round n (jsToNumber r % n) p hs (Nat.lt_of_lt_of_le hp hkn)
    rw [hbij, Finset.card_range]
  · intro m _ hne
    rw [cwt_eq r k m n hn'] at hne ⊢
    by_cases hlt : (m + (n - jsToNumber r % n)) % n < k
    · simp [hlt] at hne
    · simp only [if_neg hlt]
      refine ⟨?_, dvd_mul_left _ _⟩
      have h1 : 1 ≤ (m + (n - jsToNumber r % n)) % n - k + 1 := by omega
      have h2 : 0 < BASE_WAIT_TIME := by decide
      exact Nat.mul_pos h1 h2
  · intro m₁ h₁ m₂ h₂ hne hz₁ hz₂ heq
    rw [cwt_eq r k m₁ n hn'] at hz₁ heq
    rw [cwt_eq r k m₂ n hn'] at hz₂ heq
    by_cases hl₁ : (m₁ + (n - jsToNumber r % n)) % n < k
    · simp [hl₁] at hz₁
    by_cases hl₂ : (m₂ + (n - jsToNumber r % n)) % n < k
    · simp [hl₂] at hz₂
    simp only [if_neg hl₁, if_neg hl₂] at heq
    have hBW : 0 < BASE_WAIT_TIME := by decide
    have hp : (m₁ + (n - jsToNumber r % n)) % n - k + 1 =
        (m₂ + (n - jsToNumber r % n)) % n - k + 1 :=
      Nat.eq_of_mul_eq_mul_right hBW heq
    have hpp : (m₁ + (n - jsToNumber r % n)) % n =
        (m₂ + (n - jsToNumber r % n)) % n := by omega
    have hmm := congrArg (fun x => (x + jsToNumber r % n) % n) hpp
    simp only at hmm
    rw [pos_inv n (jsToNumber r % n) m₁ hs h₁,
      pos_inv n (jsToNumber r % n) m₂ hs h₂] at hmm
    exact hne hmm

/-- Witness for C3 at `r = 7`, `k = 1`, `n = 3`: start node `7 % 3 = 1`;
node 1 executes immediately, the others wait 120 s and 60 s. -/
theorem C3_scheduler_locality_witness :
    ((Finset.range 3).filter (fun m => calculate_wait_time 7 1 m 3 = 0)).card = 1 ∧
    calculate_wait_time 7 1 0 3 = 120000 ∧
    calculate_wait_time 7 1 1 3 = 0 ∧
    calculate_wait_time 7 1 2 3 = 60000 := by
  refine ⟨(C3_scheduler_locality 7 1 3 (by decide) (by decide)).1, by decide, by decide, by decide⟩

/-- C4. The scheduler does not compute `r mod n` on the big integer: the
id is first converted with JS `Number`, which rounds `2^53 + 1` to `2^53`.
For `n = 3` the code's start node is `2` while exact big-integer
arithmetic gives `0`, so node 0 waits 60 s instead of executing
immediately. -/
theorem C4_number_precision_loss :
    jsToNumber (2 ^ 53 + 1) = 2 ^ 53 ∧
    jsToNumber (2 ^ 53 + 1) % 3 = 2 ∧
    (2 ^ 53 + 1) % 3 = 0 ∧
    calculate_wait_time (2 ^ 53 + 1) 1 0 3 = BASE_WAIT_TIME := by
  refine ⟨by decide, by decide, by decide, by decide⟩

/-- C10. Redundancy default at the event interface: `event.args[1] || 1`
treats a `0`, absent or otherwise falsy redundancy as 1; any other value
is used unchanged in the wait-delay computation of the pipeline. -/
theorem C10_redundancy_default (env : PipeEnv) (ev : JsEvent) :
    ((ev.redundancyArg = none ∨ ev.redundancyArg = some 0) →
      requestWaitTime env ev =
        calculate_wait_time ev.requestId 1 env.myNodeIndex.toNat env.numNodes) ∧
    (∀ j, ev.redundancyArg = some j → j ≠ 0 →
      requestWaitTime env ev =
        calculate_wait_time ev.requestId j env.myNodeIndex.toNat env.numNodes) := by
  constructor
  · rintro (h | h) <;> simp [requestWaitTime, h, jsOrDefault]
  · rintro j h hj
    cases j with
    | zero => exact absurd rfl hj
    | succ i => simp [requestWaitTime, h, jsOrDefault]

/-- A pipeline environment used to instantiate universally quantified
pipeline theorems at concrete inputs. -/
def envW : PipeEnv :=
  { myNodeIndex := 0, numNodes := 2, hashFn := fun _ => "", store := [],
    checkAfterSleep := "OK", requestInfo := none,
    providerResult := Except.error (), checkAfterWork := "OK" }

/-- Witness for C10: redundancy 0 behaves like 1; redundancy 2 is kept. -/
theorem C10_redundancy_default_witness :
    requestWaitTime envW ⟨5, some 0⟩ = calculate_wait_time 5 1 0 2 ∧
    requestWaitTime envW ⟨5, some 2⟩ = calculate_wait_time 5 2 0 2 :=
  ⟨(C10_redundancy_default envW ⟨5, some 0⟩).1 (Or.inr rfl),
   (C10_redundancy_default envW ⟨5, some 2⟩).2 2 rfl (by decide)⟩

/-! ### Theorems: provider trimming (C9) -/

lemma head?_dropWhile_not {α : Type} {p : α → Bool} :
    ∀ (l : List α) (a : α), (l.dropWhile p).head? = some a → p a = false := by
  intro l
  induction l with
  | nil => intro a h; simp [List.dropWhile] at h
  | cons c t ih =>
    intro a h
    rw [List.dropWhile_cons] at h
    split at h
    · exact ih a h
    · rename_i hc
      simp only [List.head?_cons, Option.some.injEq] at h
      subst h
      exact Bool.not_eq_true _ ▸ hc

lemma getLast?_dropWhile {α : Type} {p : α → Bool} :
    ∀ l : List α, l.dropWhile p ≠ [] → (l.dropWhile p).getLast? = l.getLast? := by
  intro l
  induction l with
  | nil => simp
  | cons c t ih =>
    intro hne
    rw [List.dropWhile_cons] at hne ⊢
    by_cases hc : p c = true
    · rw [if_pos hc] at hne ⊢
      rw [ih hne]
      cases t with
      | nil => simp [List.dropWhile] at hne
      | cons x xs => rw [List.getLast?_cons_cons]
    · rw [if_neg hc]

/-- The shape the spec requires of a provider answer: empty, or first and
last characters are non-whitespace. -/
def trimmedShape (s : String) : Prop :=
  (∀ a, s.data.head? = some a → isJsSpace a = false) ∧
  (∀ a, s.data.getLast? = some a → isJsSpace a = false)

lemma jsTrim_trimmedShape (s : String) : trimmedShape (jsTrim s) := by
  constructor
  · intro a ha
    simp only [jsTrim, jsTrimL] at ha
    rw [List.head?_reverse] at ha
    have hne : (s.data.dropWhile isJsSpace).reverse.dropWhile isJsSpace ≠ [] := by
      intro h0
      rw [h0] at ha
      simp at ha
    rw [getLast?_dropWhile _ hne, List.getLast?_reverse] at ha
    exact head?_dropWhile_not _ a ha
  · intro a ha
    simp only [jsTrim, jsTrimL] at ha
    rw [List.getLast?_reverse] at ha
    exact head?_dropWhile_not _ a ha

/-- C9 (amended). Every recognized platform except `anthropic` returns a
trimmed text: its first and last characters are non-whitespace (or it is
empty).  The anthropic adapter returns the response text untrimmed. -/
theorem C9_trimmed_amended (platform raw out : String)
    (h : process_llm_request platform raw = some out)
    (hna : jsToLower platform ≠ "anthropic") : trimmedShape out := by
  unfold process_llm_request at h
  split at h
  case _ heq => cases h; exact jsTrim_trimmedShape raw
  case _ heq => exact absurd heq hna
  all_goals first
    | (cases h; exact jsTrim_trimmedShape raw)
    | (cases h)

/-- Counterexample to C9 as stated: the anthropic adapter does not trim.
With a provider response text `" hi "` the dispatch entry point returns
`" hi "`, whose first character is whitespace. -/
theorem C9_trimmed_counterexample :
    process_llm_request "anthropic" " hi " = some " hi " ∧ ¬ trimmedShape " hi " := by
  constructor
  · rfl
  · intro hts
    have h := hts.1 ' ' rfl
    simp [isJsSpace] at h

/-- Witness for C9 (amended) at platform `openai`. -/
theorem C9_trimmed_witness :
    process_llm_request "openai" " hi " = some "hi" ∧ trimmedShape "hi" :=
  ⟨by decide, C9_trimmed_amended "openai" " hi " "hi" (by decide) (by decide)⟩

/-! ### Theorems: content addressing (C7) -/

lemma lookup_mem {α β : Type} [BEq α] [LawfulBEq α] {l : List (α × β)} {a : α} {b : β}
    (h : List.lookup a l = some b) : (a, b) ∈ l := by
  induction l with
  | nil => simp [List.lookup] at h
  | cons p t ih =>
    cases p with
    | mk k v =>
      rcases hbeq : a == k with _ | _
      · simp only [List.lookup, hbeq] at h
        exact List.mem_cons_of_mem _ (ih h)
      · simp only [List.lookup, hbeq, Option.some.injEq] at h
        have hak : a = k := eq_of_beq hbeq
        subst hak
        subst h
        exact List.mem_cons_self _ _

/-- Every file of the storage directory is named by the hash of its
content — the invariant the real store maintains because files are only
ever created by `storeContent`. -/
def storeConsistent (hashFn : String → String) (store : Store) : Prop :=
  ∀ p ∈ store, hashFn p.2 = p.1

instance (hashFn : String → String) (store : Store) :
    Decidable (storeConsistent hashFn store) := by
  unfold storeConsistent; infer_instance

/-- C7 (amended). Content-addressing round trip.  First part: if the hash
function yields a valid lowercase 64-hex name for `b` and no pre-existing
file named `hashFn b` holds different content, then
`get (put b) = b`.  Second part: on a consistent store, if `get h`
returns `b` for a valid hash `h` then `put b` returns the *lowercase* of
`h` (equal to `h` itself whenever `h` is lowercase, but not for
mixed-case hashes, which `get` also accepts). -/
theorem C7_content_addressing_amended
    (hashFn : String → String) (store store' : Store) (b h c : String) :
    (validHash (hashFn b) = true → jsToLower (hashFn b) = hashFn b →
      (∀ p ∈ store, p.1 = hashFn b → p.2 = b) →
      getContent (storeContent hashFn store b).2 (storeContent hashFn store b).1 = some b) ∧
    (storeConsistent hashFn store → validHash h = true → getContent store h = some c →
      (storeContent hashFn store' c).1 = jsToLower h) := by
  constructor
  · intro hv hlow hnoc
    unfold storeContent
    cases hl : List.lookup (hashFn b) store with
    | some v =>
      simp only [hl]
      unfold getContent
      rw [if_pos hv, hlow, hl]
      have hmem := lookup_mem hl
      have hvb := hnoc _ hmem rfl
      exact congrArg some hvb
    | none =>
      simp only [hl]
      unfold getContent
      rw [if_pos hv, hlow]
      simp [List.lookup]
  · intro hcons hv hget
    unfold getContent at hget
    rw [if_pos hv] at hget
    have hmem := lookup_mem hget
    unfold storeConsistent at hcons
    have hhash := hcons _ hmem
    have h1 : (storeContent hashFn store' c).1 = hashFn c := by
      cases hmatch : List.lookup (hashFn c) store' <;> simp [storeContent, hmatch]
    rw [h1, hhash]

/-- A 64-char lowercase hex name. -/
def h64a : String :=
  "aaaaaaaaaaaaaaaaaaaaaaaaaaaaaaaaaaaaaaaaaaaaaaaaaaaaaaaaaaaaaaaa"

/-- The same name in uppercase — also accepted by the hash regex. -/
def h64A : String :=
  "AAAAAAAAAAAAAAAAAAAAAAAAAAAAAAAAAAAAAAAAAAAAAAAAAAAAAAAAAAAAAAAA"

/-- A toy hash function used to instantiate the store theorems. -/
def hashFnA : String → String := fun _ => h64a

/-- Counterexample to C7 as stated: for the valid mixed-case hash `h64A`,
`get` lowercases and returns the stored bytes, but `put` of those bytes
returns the lowercase name, not `h64A` itself. -/
theorem C7_content_addressing_counterexample :
    storeConsistent hashFnA [(h64a, "ping")] ∧
    validHash h64A = true ∧
    getContent [(h64a, "ping")] h64A = some "ping" ∧
    (storeContent hashFnA [] "ping").1 ≠ h64A := by
  refine ⟨by decide, by decide, by decide, by decide⟩

/-- Witness for C7 (amended). -/
theorem C7_content_addressing_witness :
    getContent (storeContent hashFnA [] "x").2 (storeContent hashFnA [] "x").1 = some "x" ∧
    (storeContent hashFnA [] "ping").1 = jsToLower h64A := by
  constructor
  · exact (C7_content_addressing_amended hashFnA [] [] "x" "" "").1
      (by decide) (by decide) (by simp)
  · exact (C7_content_addressing_amended hashFnA [(h64a, "ping")] [] "ping" h64A "ping").2
      (by decide) (by decide) (by decide)

/-! ### Theorems: pre- and post-work gating (C2) -/

lemma on_llm_result_no_send (env : PipeEnv) (info : RequestInfo) (raw : String)
    (h : env.checkAfterWork ≠ "OK") :
    ∀ a ∈ on_llm_result env info raw, a.isSend = false := by
  intro a ha
  unfold on_llm_result at ha
  by_cases hst : info.storeResultOffchain = true
  · simp [hst, h] at ha
    rcases ha with ha | ha <;> subst ha <;> rfl
  · simp only [Bool.not_eq_true] at hst
    simp [hst, h] at ha
    subst ha
    rfl

/-- C2. Gating around the provider call and the submission.  First part:
when the computed delay is positive and the pre-work `checkSubmission`
answer is not `"OK"`, the task performs neither a provider invocation nor
a `sendResult`.  Second part: when the post-work `checkSubmission` answer
is not `"OK"`, no `sendResult` ever appears in the task's trace. -/
theorem C2_submission_gating (env : PipeEnv) (ev : JsEvent) :
    (0 < requestWaitTime env ev → env.checkAfterSleep ≠ "OK" →
      ∀ a ∈ on_llm_request env ev, a.isInvoke = false ∧ a.isSend = false) ∧
    (env.checkAfterWork ≠ "OK" →
      ∀ a ∈ on_llm_request env ev, a.isSend = false) := by
  constructor
  · intro hw hc a ha
    unfold on_llm_request at ha
    by_cases hm : env.myNodeIndex = -1
    · simp [hm] at ha
    · simp only [if_neg hm] at ha
      rw [if_pos ⟨hw, hc⟩] at ha
      rw [if_pos hw] at ha
      simp only [List.mem_cons, List.mem_singleton, List.not_mem_nil, or_false] at ha
      rcases ha with ha | ha <;> subst ha <;> exact ⟨rfl, rfl⟩
  · intro hcw a ha
    unfold on_llm_request at ha
    by_cases hm : env.myNodeIndex = -1
    · simp [hm] at ha
    · simp only [if_neg hm] at ha
      by_cases hpre : 0 < requestWaitTime env ev ∧ env.checkAfterSleep ≠ "OK"
      · rw [if_pos hpre] at ha
        rw [if_pos hpre.1] at ha
        simp only [List.mem_cons, List.mem_singleton, List.not_mem_nil, or_false] at ha
        rcases ha with ha | ha <;> subst ha <;> rfl
      · rw [if_neg hpre] at ha
        rcases List.mem_append.mp ha with hpa | hrest
        · by_cases hw0 : 0 < requestWaitTime env ev
          · rw [if_pos hw0] at hpa
            simp only [List.mem_cons, List.mem_singleton, List.not_mem_nil, or_false] at hpa
            rcases hpa with hpa | hpa <;> subst hpa <;> rfl
          · rw [if_neg hw0] at hpa
            simp at hpa
        · rcases List.mem_cons.mp hrest with hri | hrest2
          · subst hri; rfl
          · cases hinfo : env.requestInfo with
            | none => rw [hinfo] at hrest2; simp at hrest2
            | some info =>
              rw [hinfo] at hrest2
              simp only at hrest2
              cases hgc : getContent env.store info.promptHash with
              | none => rw [hgc] at hrest2; simp at hrest2
              | some cc =>
                rw [hgc] at hrest2
                simp only at hrest2
                cases hpc : parseConfig cc with
                | none => rw [hpc] at hrest2; simp at hrest2
                | some config =>
                  rw [hpc] at hrest2
                  simp only at hrest2
                  by_cases hpm : config.platform.getD info.platform = "" ∨
                      config.model.getD info.model = ""
                  · rw [if_pos hpm] at hrest2; simp at hrest2
                  · rw [if_neg hpm] at hrest2
                    rcases List.mem_cons.mp hrest2 with hiv | hrest3
                    · subst hiv; rfl
                    · cases hpr : env.providerResult with
                      | error e => rw [hpr] at hrest3; simp at hrest3
                      | ok raw =>
                        rw [hpr] at hrest3
                        simp only at hrest3
                        exact on_llm_result_no_send env info raw hcw a hrest3

/-- Pipeline environment with stale pre- and post-work check answers. -/
def envC2 : PipeEnv :=
  { myNodeIndex := 0, numNodes := 2, hashFn := fun _ => "", store := [],
    checkAfterSleep := "submitted", requestInfo := none,
    providerResult := Except.error (), checkAfterWork := "submitted" }

/-- Witness for C2: request id 1 on node 0 of 2 has a 60 s delay; with a
stale `checkSubmission` answer the task neither invokes the provider nor
sends a result. -/
theorem C2_submission_gating_witness :
    0 < requestWaitTime envC2 ⟨1, some 1⟩ ∧
    (∀ a ∈ on_llm_request envC2 ⟨1, some 1⟩, a.isInvoke = false ∧ a.isSend = false) ∧
    (∀ a ∈ on_llm_request envC2 ⟨1, some 1⟩, a.isSend = false) :=
  ⟨by decide,
   (C2_submission_gating envC2 ⟨1, some 1⟩).1 (by decide) (by decide),
   (C2_submission_gating envC2 ⟨1, some 1⟩).2 (by decide)⟩

/-! ### Theorems: ingester (C1, C5, C6) -/

lemma freshFor_of_not_processed {st : IngestState} {e : Ev}
    (h : ¬ alreadyProcessed st e) :
    freshFor st.lastProcessedBlock st.lastProcessedLogIndex e := by
  unfold alreadyProcessed at h
  unfold freshFor
  push_neg at h
  obtain ⟨h1, h2⟩ := h
  rcases Nat.lt_or_ge st.lastProcessedBlock e.blockNumber with hlt | hge
  · exact Or.inl hlt
  · have heq : e.blockNumber = st.lastProcessedBlock := by omega
    exact Or.inr ⟨heq.symm, Bool.eq_false_iff.mpr (h2 heq)⟩

lemma processEvents_fresh : ∀ (evs : List Ev) (st : IngestState),
    (∀ d ∈ st.delivered, entryFresh d) →
    ∀ d ∈ (processEvents st evs).delivered, entryFresh d := by
  intro evs
  induction evs with
  | nil => intro st h; simpa [processEvents] using h
  | cons e rest ih =>
    intro st h
    unfold processEvents
    split
    · exact ih st h
    · rename_i hnp
      apply ih
      intro d hd
      rcases List.mem_append.mp hd with hd | hd
      · exact h d hd
      · simp only [List.mem_singleton] at hd
        subst hd
        exact freshFor_of_not_processed hnp

lemma catchUpLoop_fresh (q : Nat → Nat → Except Unit (List Ev)) (last : Nat) :
    ∀ (fuel start : Nat) (st : IngestState),
    (∀ d ∈ st.delivered, entryFresh d) →
    ∀ d ∈ (catchUpLoop q last fuel start st).delivered, entryFresh d := by
  intro fuel
  induction fuel with
  | zero => intro start st h; simpa [catchUpLoop] using h
  | succ f ih =>
    intro start st h
    simp only [catchUpLoop]
    split
    · cases q start (min (start + 9999) last) with
      | ok evs => exact ih _ _ (processEvents_fresh _ _ h)
      | error e => exact ih _ _ h
    · exact h

lemma get_past_events_delivered (q : Nat → Nat → Except Unit (List Ev))
    (head : Nat) (st : IngestState) :
    (get_past_events q head st).delivered =
      if head < startBlockOf st then st.delivered
      else
        (catchUpLoop q head (head + 1 - startBlockOf st)
          (startBlockOf st) st).delivered := by
  by_cases hc : head < startBlockOf st
  · simp [get_past_events, hc]
  · by_cases h2 : (catchUpLoop q head (head + 1 - startBlockOf st)
        (startBlockOf st) st).lastProcessedBlock < head
    · simp [get_past_events, hc, h2]
    · simp [get_past_events, hc, h2]

lemma get_past_events_file (q : Nat → Nat → Except Unit (List Ev))
    (head : Nat) (st : IngestState) (h : ¬ head < startBlockOf st) :
    (get_past_events q head st).fileCursor =
      some ((get_past_events q head st).lastProcessedBlock,
        (get_past_events q head st).lastProcessedLogIndex) := by
  by_cases h2 : (catchUpLoop q head (head + 1 - startBlockOf st)
      (startBlockOf st) st).lastProcessedBlock < head
  · simp [get_past_events, h, h2]
  · simp [get_past_events, h, h2]

lemma get_past_events_block_ge (q : Nat → Nat → Except Unit (List Ev))
    (head : Nat) (st : IngestState) (h : ¬ head < startBlockOf st) :
    head ≤ (get_past_events q head st).lastProcessedBlock := by
  by_cases h2 : (catchUpLoop q head (head + 1 - startBlockOf st)
      (startBlockOf st) st).lastProcessedBlock < head
  · simp [get_past_events, h, h2]
  · simp [get_past_events, h, h2]
    omega

/-- C1. At-most-once delivery: every event ever delivered to the pipeline
— during catch-up and by the live subscription — was strictly greater, in
`(block, logIndex)` lexicographic order, than the in-memory cursor at the
moment of delivery; an event at or below the cursor is never delivered. -/
theorem C1_at_most_once (q : Nat → Nat → Except Unit (List Ev)) (head : Nat)
    (st : IngestState) (e : Ev)
    (h : ∀ d ∈ st.delivered, entryFresh d) :
    (∀ d ∈ (get_past_events q head st).delivered, entryFresh d) ∧
    (∀ d ∈ (handle_subscription_event st e).delivered, entryFresh d) := by
  constructor
  · intro d hd
    rw [get_past_events_delivered] at hd
    split at hd
    · exact h d hd
    · exact catchUpLoop_fresh q head _ _ st h d hd
  · intro d hd
    unfold handle_subscription_event at hd
    split at hd
    · exact h d hd
    · rename_i hnp
      rcases List.mem_append.mp hd with hd | hd
      · exact h d hd
      · simp only [List.mem_singleton] at hd
        subst hd
        exact freshFor_of_not_processed hnp

lemma processEvents_fileCursor : ∀ (evs : List Ev) (st : IngestState),
    (processEvents st evs).fileCursor = st.fileCursor := by
  intro evs
  induction evs with
  | nil => intro st; rfl
  | cons e rest ih =>
    intro st
    unfold processEvents
    split
    · exact ih st
    · exact ih _

lemma processEvents_delivered_file : ∀ (evs : List Ev) (st : IngestState),
    ∀ d ∈ (processEvents st evs).delivered,
      d ∈ st.delivered ∨ d.fileAtDelivery = st.fileCursor := by
  intro evs
  induction evs with
  | nil => intro st d hd; exact Or.inl hd
  | cons e rest ih =>
    intro st d hd
    rw [processEvents] at hd
    split at hd
    · exact ih st d hd
    · rcases ih _ d hd with hmem | hfile
      · rcases List.mem_append.mp hmem with hmem | hmem
        · exact Or.inl hmem
        · simp only [List.mem_singleton] at hmem
          subst hmem
          exact Or.inr rfl
      · exact Or.inr hfile

lemma catchUpLoop_fileCursor (q : Nat → Nat → Except Unit (List Ev)) (last : Nat) :
    ∀ (fuel start : Nat) (st : IngestState),
    (catchUpLoop q last fuel start st).fileCursor = st.fileCursor := by
  intro fuel
  induction fuel with
  | zero => intro start st; rfl
  | succ f ih =>
    intro start st
    simp only [catchUpLoop]
    split
    · cases q start (min (start + 9999) last) with
      | ok evs => rw [ih, processEvents_fileCursor]
      | error e => rw [ih]
    · rfl

lemma catchUpLoop_delivered_file (q : Nat → Nat → Except Unit (List Ev)) (last : Nat) :
    ∀ (fuel start : Nat) (st : IngestState),
    ∀ d ∈ (catchUpLoop q last fuel start st).delivered,
      d ∈ st.delivered ∨ d.fileAtDelivery = st.fileCursor := by
  intro fuel
  induction fuel with
  | zero => intro start st d hd; exact Or.inl hd
  | succ f ih =>
    intro start st d hd
    simp only [catchUpLoop] at hd
    split at hd
    · revert hd
      cases q start (min (start + 9999) last) with
      | error e => intro hd; exact ih _ st d hd
      | ok evs =>
        intro hd
        rcases ih _ _ d hd with hmem | hfile
        · rcases processEvents_delivered_file _ st d hmem with h1 | h1
          · exact Or.inl h1
          · exact Or.inr h1
        · rw [processEvents_fileCursor] at hfile
          exact Or.inr hfile
    · exact Or.inl hd

/-- C5 (amended). During catch-up the cursor is updated in memory after
each delivery, but the cursor file is not written between deliveries:
every event of the catch-up run is delivered while the file still holds
its pre-catch-up content, and the file is written once, after the loop,
with the final cursor (whenever catch-up was not skipped). -/
theorem C5_catch_up_persistence_amended (q : Nat → Nat → Except Unit (List Ev))
    (head : Nat) (st : IngestState) (h0 : st.delivered = []) :
    (∀ d ∈ (get_past_events q head st).delivered,
      d.fileAtDelivery = st.fileCursor) ∧
    (startBlockOf st ≤ head →
      (get_past_events q head st).fileCursor =
        some ((get_past_events q head st).lastProcessedBlock,
          (get_past_events q head st).lastProcessedLogIndex)) := by
  constructor
  · intro d hd
    rw [get_past_events_delivered] at hd
    split at hd
    · rw [h0] at hd
      simp at hd
    · rcases catchUpLoop_delivered_file q head _ _ st d hd with hmem | hfile
      · rw [h0] at hmem
        simp at hmem
      · exact hfile
  · intro hle
    exact get_past_events_file q head st (by omega)

/-- Catch-up trace used to exhibit per-event persistence behaviour: two
events in block 5 behind a cursor at `(5, 0)`. -/
def qC5 : Nat → Nat → Except Unit (List Ev) :=
  fun s _ => if s = 5 then .ok [⟨5, 1⟩, ⟨5, 2⟩] else .ok []

/-- Initial ingest state for the catch-up traces: cursor `(5, 0)`, file in
sync, nothing delivered yet. -/
def stC5 : IngestState := ⟨5, .fin 0, some (5, .fin 0), []⟩

/-- Counterexample to C5 as stated: in the catch-up run over block 5 the
second event `(5, 2)` is delivered while the persisted cursor is still
`(5, 0)`, which does not cover the previously delivered event `(5, 1)` —
the file is only written after the loop. -/
theorem C5_catch_up_persistence_counterexample :
    ¬ (∀ (i : Nat) (d d' : Entry),
        (get_past_events qC5 5 stC5).delivered.get? i = some d →
        (get_past_events qC5 5 stC5).delivered.get? (i + 1) = some d' →
        ∃ c, d'.fileAtDelivery = some c ∧ cursorCovers c d.ev) := by
  intro h
  obtain ⟨c, hc, hcov⟩ :=
    h 0 ⟨⟨5, 1⟩, 5, .fin 0, some (5, .fin 0)⟩ ⟨⟨5, 2⟩, 5, .fin 1, some (5, .fin 0)⟩
      (by decide) (by decide)
  have hce : c = (5, LogIdx.fin 0) := by
    simpa using hc.symm
  subst hce
  exact (by decide : ¬ cursorCovers (5, LogIdx.fin 0) ⟨5, 1⟩) hcov

/-- Witness for C5 (amended) on the concrete catch-up trace. -/
theorem C5_catch_up_persistence_witness :
    (∀ d ∈ (get_past_events qC5 5 stC5).delivered,
      d.fileAtDelivery = stC5.fileCursor) ∧
    (get_past_events qC5 5 stC5).fileCursor =
      some ((get_past_events qC5 5 stC5).lastProcessedBlock,
        (get_past_events qC5 5 stC5).lastProcessedLogIndex) :=
  ⟨(C5_catch_up_persistence_amended qC5 5 stC5 rfl).1,
   (C5_catch_up_persistence_amended qC5 5 stC5 rfl).2 (by decide)⟩

/-- C6 (amended). If querying a block range fails, the loop logs the
error and continues with the next range with the state unchanged;
however, after the loop the cursor is advanced to at least the chain head
(with `logIndex = Infinity`) and persisted regardless of failed ranges.
`JSON.stringify` writes that `Infinity` as `null`, which a restart reads
back as `null` and the duplicate guard compares like `0`.  Hence after a
restart the failed range's events in blocks strictly below the head, and
the head-block event with log index 0, are never re-delivered; only
head-block events with log index ≥ 1 are re-delivered. -/
theorem C6_ingest_error_amended :
    (∀ (q : Nat → Nat → Except Unit (List Ev)) (last fuel start : Nat)
        (st : IngestState),
      start ≤ last → q start (min (start + 9999) last) = .error () →
      catchUpLoop q last (fuel + 1) start st =
        catchUpLoop q last fuel (min (start + 9999) last + 1) st) ∧
    (∀ (q : Nat → Nat → Except Unit (List Ev)) (head : Nat) (st : IngestState),
      startBlockOf st ≤ head →
      ∃ c, (get_past_events q head st).fileCursor = some c ∧ head ≤ c.1) ∧
    (∀ (head : Nat) (e : Ev), e.blockNumber < head →
      alreadyProcessed (restartIngest (some (head, .inf))) e) ∧
    (∀ (head : Nat) (e : Ev), e.blockNumber = head → e.logIndex = 0 →
      alreadyProcessed (restartIngest (some (head, .inf))) e) ∧
    (∀ (head : Nat) (e : Ev), e.blockNumber = head → 1 ≤ e.logIndex →
      ¬ alreadyProcessed (restartIngest (some (head, .inf))) e) := by
  refine ⟨?_, ?_, ?_, ?_, ?_⟩
  · intro q last fuel start st hle hq
    simp only [catchUpLoop, if_pos hle, hq]
  · intro q head st hle
    refine ⟨((get_past_events q head st).lastProcessedBlock,
      (get_past_events q head st).lastProcessedLogIndex),
      get_past_events_file q head st (by omega), ?_⟩
    exact get_past_events_block_ge q head st (by omega)
  · intro head e hlt
    exact Or.inl hlt
  · intro head e hb hi
    refine Or.inr ⟨hb, ?_⟩
    simp [restartIngest, get_last_processed_event, jsonReadIdx, leIdx, hi]
  · intro head e hb hi hproc
    rcases hproc with hlt | ⟨_, hle⟩
    · simp only [restartIngest, get_last_processed_event, jsonReadIdx] at hlt
      omega
    · simp only [restartIngest, get_last_processed_event, jsonReadIdx, leIdx] at hle
      have := Nat.le_of_ble_eq_true hle
      omega

/-- A chain whose log queries always fail. -/
def qC6 : Nat → Nat → Except Unit (List Ev) := fun _ _ => .error ()

/-- Counterexample to C6 as stated: with the cursor at block 5 and head 6,
the (single) range query for blocks 5-6 fails, yet the persisted cursor
afterwards is `(6, Infinity)` — advanced past the failed range — and on a
restart (the file reads back as `(6, null)`) the failed-range event
`(5, 0)` is already covered by the duplicate guard: it can never be
re-delivered. -/
theorem C6_ingest_error_counterexample :
    qC6 5 6 = .error () ∧
    (get_past_events qC6 6 stC5).fileCursor = some (6, .inf) ∧
    alreadyProcessed (restartIngest (some (6, .inf))) ⟨5, 0⟩ := by
  refine ⟨rfl, by decide, by decide⟩

/-- Witness for C6 (amended) on the always-failing chain: the loop
continues past the failed range, persists a cursor at the head, and after
a restart block-4 and `(6, 0)` events are covered while `(6, 1)` is not. -/
theorem C6_ingest_error_witness :
    catchUpLoop qC6 6 1 5 stC5 = catchUpLoop qC6 6 0 (min (5 + 9999) 6 + 1) stC5 ∧
    (∃ c, (get_past_events qC6 6 stC5).fileCursor = some c ∧ 6 ≤ c.1) ∧
    alreadyProcessed (restartIngest (some (6, .inf))) ⟨4, 9⟩ ∧
    alreadyProcessed (restartIngest (some (6, .inf))) ⟨6, 0⟩ ∧
    ¬ alreadyProcessed (restartIngest (some (6, .inf))) ⟨6, 1⟩ :=
  ⟨C6_ingest_error_amended.1 qC6 6 0 5 stC5 (by decide) rfl,
   C6_ingest_error_amended.2.1 qC6 6 stC5 (by decide),
   C6_ingest_error_amended.2.2.1 6 ⟨4, 9⟩ (by decide),
   C6_ingest_error_amended.2.2.2.1 6 ⟨6, 0⟩ rfl rfl,
   C6_ingest_error_amended.2.2.2.2 6 ⟨6, 1⟩ rfl (by decide)⟩

/-- Witness for C1 on the concrete catch-up state and a live event. -/
theorem C1_at_most_once_witness :
    (∀ d ∈ (get_past_events qC5 5 stC5).delivered, entryFresh d) ∧
    (∀ d ∈ (handle_subscription_event stC5 ⟨6, 0⟩).delivered, entryFresh d) :=
  C1_at_most_once qC5 5 stC5 ⟨6, 0⟩ (by decide)

/-! ### Theorems: prompt substitution (C8) -/

lemma length_dropWhile_le {α : Type} (p : α → Bool) :
    ∀ l : List α, (List.dropWhile p l).length ≤ l.length := by
  intro l
  induction l with
  | nil => simp [List.dropWhile]
  | cons c t ih =>
    rw [List.dropWhile_cons]
    split
    · exact Nat.le_succ_of_le ih
    · exact Nat.le_refl _

lemma dropWhile_append_all {α : Type} {p : α → Bool} :
    ∀ (a b : List α), (∀ c ∈ a, p c = true) →
      List.dropWhile p (a ++ b) = List.dropWhile p b := by
  intro a
  induction a with
  | nil => intro b _; rfl
  | cons x xs ih =>
    intro b h
    rw [List.cons_append, List.dropWhile_cons, if_pos (h x (List.mem_cons_self _ _))]
    exact ih b fun c hc => h c (List.mem_cons_of_mem _ hc)

lemma matchKeyWs_length {key l rem : List Char} (h : matchKeyWs key l = some rem) :
    rem.length ≤ l.length := by
  simp only [matchKeyWs] at h
  split at h
  · split at h
    · rename_i heq
      cases h
      have h1 := congrArg List.length heq
      simp only [List.length_cons] at h1
      have h2 := length_dropWhile_le isJsSpace
        ((List.dropWhile isJsSpace l).drop key.length)
      have h3 := length_dropWhile_le isJsSpace l
      have h4 : ((List.dropWhile isJsSpace l).drop key.length).length ≤
          (List.dropWhile isJsSpace l).length := by
        rw [List.length_drop]
        omega
      omega
    · exact absurd h (by simp)
  · exact absurd h (by simp)

lemma expandRepl_no_dollar (b m a : List Char) :
    ∀ (t : List Char), (∀ c ∈ t, c ≠ '$') → expandRepl b m a t = t := by
  intro t
  induction t with
  | nil => intro _; rfl
  | cons c rest ih =>
    intro hnd
    have hc : c ≠ '$' := hnd c (List.mem_cons_self _ _)
    rw [expandRepl.eq_def]
    simp only []
    rw [if_neg hc]
    exact congrArg (c :: ·) (ih fun x hx => hnd x (List.mem_cons_of_mem _ hx))

lemma substAllAux_fuel_agree (key repl whole : List Char) :
    ∀ (f1 f2 pos : Nat) (l : List Char), l.length ≤ f1 → l.length ≤ f2 →
      substAllAux key repl whole f1 pos l = substAllAux key repl whole f2 pos l := by
  intro f1
  induction f1 with
  | zero =>
    intro f2 pos l h1 _
    have hl : l = [] := List.eq_nil_of_length_eq_zero (Nat.le_zero.mp h1)
    subst hl
    cases f2 <;> rfl
  | succ g ih =>
    intro f2 pos l h1 h2
    cases l with
    | nil => cases f2 <;> rfl
    | cons c rest =>
      cases f2 with
      | zero => simp at h2
      | succ g2 =>
        simp only [List.length_cons] at h1 h2
        simp only [substAllAux]
        by_cases hc : c = '\x7b'
        · rw [if_pos hc, if_pos hc]
          cases rest with
          | nil => rfl
          | cons c2 rest2 =>
            simp only [List.length_cons] at h1 h2
            simp only []
            by_cases hc2 : c2 = '\x7b'
            · rw [if_pos hc2, if_pos hc2]
              cases hm : matchKeyWs key rest2 with
              | some rem =>
                have hlen := matchKeyWs_length hm
                exact congrArg (expandRepl (whole.take pos)
                    ((c :: c2 :: rest2).take ((c :: c2 :: rest2).length - rem.length))
                    rem repl ++ ·)
                  (ih g2 _ rem (by omega) (by omega))
              | none =>
                exact congrArg (c :: ·)
                  (ih g2 _ (c2 :: rest2) (by simp; omega) (by simp; omega))
            · rw [if_neg hc2, if_neg hc2]
              exact congrArg (c :: ·)
                (ih g2 _ (c2 :: rest2) (by simp; omega) (by simp; omega))
        · rw [if_neg hc, if_neg hc]
          exact congrArg (c :: ·) (ih g2 _ rest (by omega) (by omega))

lemma substAllAux_ctx_irrel (key repl : List Char) (hnd : ∀ c ∈ repl, c ≠ '$') :
    ∀ (fuel : Nat) (whole whole' : List Char) (pos pos' : Nat) (l : List Char),
      substAllAux key repl whole fuel pos l = substAllAux key repl whole' fuel pos' l := by
  intro fuel
  induction fuel with
  | zero => intro whole whole' pos pos' l; cases l <;> rfl
  | succ g ih =>
    intro whole whole' pos pos' l
    cases l with
    | nil => rfl
    | cons c rest =>
      simp only [substAllAux]
      by_cases hc : c = '\x7b'
      · rw [if_pos hc, if_pos hc]
        cases rest with
        | nil => rfl
        | cons c2 rest2 =>
          simp only []
          by_cases hc2 : c2 = '\x7b'
          · rw [if_pos hc2, if_pos hc2]
            cases hm : matchKeyWs key rest2 with
            | some rem =>
              simp only []
              rw [expandRepl_no_dollar _ _ _ _ hnd, expandRepl_no_dollar _ _ _ _ hnd]
              exact congrArg (repl ++ ·) (ih whole whole' _ _ rem)
            | none => exact congrArg (c :: ·) (ih whole whole' _ _ (c2 :: rest2))
          · rw [if_neg hc2, if_neg hc2]
            exact congrArg (c :: ·) (ih whole whole' _ _ (c2 :: rest2))
      · rw [if_neg hc, if_neg hc]
        exact congrArg (c :: ·) (ih whole whole' _ _ rest)

lemma matchKeyWs_spec (key ws1 ws2 post : List Char)
    (hkey : key ≠ [])
    (hkeyns : ∀ c ∈ key, isJsSpace c = false)
    (hws1 : ∀ c ∈ ws1, isJsSpace c = true)
    (hws2 : ∀ c ∈ ws2, isJsSpace c = true) :
    matchKeyWs key (ws1 ++ (key ++ (ws2 ++ ('\x7d' :: '\x7d' :: post)))) = some post := by
  simp only [matchKeyWs]
  have hd1 : List.dropWhile isJsSpace (ws1 ++ (key ++ (ws2 ++ ('\x7d' :: '\x7d' :: post))))
      = key ++ (ws2 ++ ('\x7d' :: '\x7d' :: post)) := by
    rw [dropWhile_append_all ws1 _ hws1]
    cases key with
    | nil => exact absurd rfl hkey
    | cons kc ktl =>
      rw [List.cons_append, List.dropWhile_cons,
        if_neg (by simp [hkeyns kc (List.mem_cons_self _ _)])]
  rw [hd1]
  rw [if_pos (List.isPrefixOf_iff_prefix.mpr (List.prefix_append _ _))]
  rw [List.drop_left]
  rw [dropWhile_append_all ws2 _ hws2]
  rfl

lemma substAllAux_step_matched (key repl whole : List Char) (fuel pos : Nat)
    {X rem : List Char} (hm : matchKeyWs key X = some rem) :
    substAllAux key repl whole (fuel + 1) pos ('\x7b' :: '\x7b' :: X) =
      expandRepl (whole.take pos)
          (('\x7b' :: '\x7b' :: X).take (('\x7b' :: '\x7b' :: X).length - rem.length))
          rem repl ++
        substAllAux key repl whole fuel
          (pos + (('\x7b' :: '\x7b' :: X).length - rem.length)) rem := by
  simp [substAllAux, hm]

lemma substAllAux_step_plain (key repl whole : List Char) (fuel pos : Nat)
    {x : Char} {t : List Char} (hx : x ≠ '\x7b') :
    substAllAux key repl whole (fuel + 1) pos (x :: t) =
      x :: substAllAux key repl whole fuel (pos + 1) t := by
  simp [substAllAux, hx]

lemma regexLiteral_not_space {c : Char} (h : isRegexLiteralChar c = true) :
    isJsSpace c = false := by
  by_contra hs
  rw [Bool.not_eq_false] at hs
  simp only [isJsSpace, Bool.or_eq_true, beq_iff_eq] at hs
  rcases hs with ((((h1 | h1) | h1) | h1) | h1) | h1 <;> subst h1 <;>
    exact absurd h (by decide)

lemma regexLiteral_not_brace {c : Char} (h : isRegexLiteralChar c = true) :
    c ≠ '\x7b' := by
  intro he
  subst he
  exact absurd h (by decide)

lemma substAllAux_replace (key repl : List Char)
    (hkey : key ≠ [])
    (hkeyok : ∀ c ∈ key, isRegexLiteralChar c = true)
    (hnd : ∀ c ∈ repl, c ≠ '$') :
    ∀ (pre ws1 ws2 post whole : List Char) (pos : Nat),
      (∀ c ∈ pre, c ≠ '\x7b') →
      (∀ c ∈ ws1, isJsSpace c = true) →
      (∀ c ∈ ws2, isJsSpace c = true) →
      substAllAux key repl whole
          (pre ++ '\x7b' :: '\x7b' :: (ws1 ++ (key ++ (ws2 ++ ('\x7d' :: '\x7d' :: post))))).length
          pos
          (pre ++ '\x7b' :: '\x7b' :: (ws1 ++ (key ++ (ws2 ++ ('\x7d' :: '\x7d' :: post)))))
        = pre ++ (repl ++ substAllAux key repl post post.length 0 post) := by
  intro pre
  induction pre with
  | nil =>
    intro ws1 ws2 post whole pos hpre hws1 hws2
    simp only [List.nil_append, List.length_cons]
    rw [substAllAux_step_matched key repl whole _ _
      (matchKeyWs_spec key ws1 ws2 post hkey
        (fun c hc => regexLiteral_not_space (hkeyok c hc)) hws1 hws2)]
    rw [expandRepl_no_dollar _ _ _ _ hnd]
    refine congrArg (repl ++ ·) ?_
    rw [substAllAux_fuel_agree key repl whole _ post.length _ post
      (by simp [List.length_append]; omega) (Nat.le_refl _)]
    exact substAllAux_ctx_irrel key repl hnd post.length whole post _ 0 post
  | cons x pre' ih =>
    intro ws1 ws2 post whole pos hpre hws1 hws2
    have hx : x ≠ '\x7b' := hpre x (List.mem_cons_self _ _)
    simp only [List.cons_append, List.length_cons]
    rw [substAllAux_step_plain key repl whole _ _ hx]
    exact congrArg (x :: ·)
      (ih ws1 ws2 post whole (pos + 1)
        (fun c hc => hpre c (List.mem_cons_of_mem _ hc)) hws1 hws2)

/-- C8 (amended). Prompt substitution.  For a `(key, value)` entry of the
parsed input: (o) an empty-string value is falsy, so the guard in
`resolveContentFromHash` skips the entry and the template is unchanged;
(i) if the value is hash-shaped but the store lacks it, `buildPrompt`
leaves the template unchanged — no substitution by the raw value happens;
(ii) if the value is hash-shaped and stored, every placeholder occurrence
is replaced (by the JS replace, including its `$`-pattern expansion) with
the stored content; (iii) if the value is non-empty and not hash-shaped,
every occurrence is likewise replaced by the raw value.  Part (iv) spells
out the replacement: for a key of regex-literal characters and a
replacement text without `$`, an occurrence of the placeholder
`\x7b\x7b ws1 key ws2 \x7d\x7d` (any interior whitespace) after a
brace-free prefix is rewritten to the replacement text, and the rest of
the template is processed as by the same replace. -/
theorem C8_substitution_amended :
    (∀ (store : Store) (config : Config) (k : String),
      buildPrompt config [(k, "")] store = config.prompt) ∧
    (∀ (store : Store) (config : Config) (k v : String),
      validHash v = true → getContent store v = none →
      buildPrompt config [(k, v)] store = config.prompt) ∧
    (∀ (store : Store) (config : Config) (k v c : String),
      validHash v = true → getContent store v = some c →
      buildPrompt config [(k, v)] store = jsReplaceAll config.prompt k c) ∧
    (∀ (store : Store) (config : Config) (k v : String),
      v ≠ "" → validHash v = false →
      buildPrompt config [(k, v)] store = jsReplaceAll config.prompt k v) ∧
    (∀ (key repl : String) (pre ws1 ws2 post : List Char),
      key.data ≠ [] →
      (∀ c ∈ key.data, isRegexLiteralChar c = true) →
      (∀ c ∈ repl.data, c ≠ '$') →
      (∀ c ∈ pre, c ≠ '\x7b') →
      (∀ c ∈ ws1, isJsSpace c = true) →
      (∀ c ∈ ws2, isJsSpace c = true) →
      jsReplaceAll
          ⟨pre ++ '\x7b' :: '\x7b' :: (ws1 ++ (key.data ++ (ws2 ++ ('\x7d' :: '\x7d' :: post))))⟩
          key repl
        = ⟨pre ++ (repl.data ++ (jsReplaceAll ⟨post⟩ key repl).data)⟩) := by
  refine ⟨?_, ?_, ?_, ?_, ?_⟩
  · intro store config k
    simp [buildPrompt, substituteEntry, resolveContentFromHash]
  · intro store config k v hv hget
    have hne : v ≠ "" := by
      intro h
      subst h
      exact absurd hv (by decide)
    simp [buildPrompt, substituteEntry, resolveContentFromHash, hne, hv, hget]
  · intro store config k v c hv hget
    have hne : v ≠ "" := by
      intro h
      subst h
      exact absurd hv (by decide)
    simp [buildPrompt, substituteEntry, resolveContentFromHash, hne, hv, hget]
  · intro store config k v hne hv
    simp [buildPrompt, substituteEntry, resolveContentFromHash, hne, hv]
  · intro key repl pre ws1 ws2 post hk hkok hnd hpre hws1 hws2
    simp only [jsReplaceAll]
    exact congrArg String.mk
      (substAllAux_replace key.data repl.data hk hkok hnd pre ws1 ws2 post _ 0
        hpre hws1 hws2)

/-- Counterexample to C8 as stated: the value is a valid 64-hex hash that
the store lacks; the claim requires the placeholder to be replaced by the
raw value string, but `buildPrompt` leaves the template unchanged
(`resolveContentFromHash` returns `null` and the loop skips the entry). -/
theorem C8_substitution_counterexample :
    validHash h64a = true ∧
    getContent [] h64a = none ∧
    buildPrompt ⟨none, none, "Q: \x7b\x7bk\x7d\x7d"⟩ [("k", h64a)] [] =
      "Q: \x7b\x7bk\x7d\x7d" ∧
    "Q: \x7b\x7bk\x7d\x7d" ≠ String.append "Q: " h64a := by
  refine ⟨by decide, by decide, by decide, by decide⟩

/-- Witness for C8 (amended): a stored hash value is substituted; the
replacement evaluates on a concrete template, including a `$&` pattern
that re-inserts the matched placeholder. -/
theorem C8_substitution_witness :
    buildPrompt ⟨none, none, "Q: \x7b\x7bk\x7d\x7d"⟩ [("k", h64a)] [(h64a, "ping")] =
      jsReplaceAll "Q: \x7b\x7bk\x7d\x7d" "k" "ping" ∧
    jsReplaceAll "Q: \x7b\x7b k \x7d\x7d" "k" "ping" = "Q: ping" ∧
    jsReplaceAll "a\x7b\x7bk\x7d\x7db" "k" "[$&]" = "a[\x7b\x7bk\x7d\x7d]b" :=
  ⟨C8_substitution_amended.2.2.1 [(h64a, "ping")] ⟨none, none, "Q: \x7b\x7bk\x7d\x7d"⟩
      "k" h64a "ping" (by decide) (by decide),
   by decide,
   by decide⟩

end LLMService
